import Mathlib

/-!
Verification development for the key-binding / input-processing core of a
terminal UI toolkit (prompt_toolkit fork).  The definitions below are a
shallow embedding of the Python sources:

  * `Focus`                   — layout/focus.py, class Focus
  * `Registry` and friends    — key_binding/registry.py (not among the
                               provided sources; modelled from the spec)
  * the input processor loop  — key_binding/input_processor.py (not among the
                               provided sources; modelled from the spec)
  * `createRegistry` etc.     — application.py, class _CombinedRegistry
  * `App` operations          — application.py, class Application
  * `AppChain` operations     — application.py, class _InterfaceEventLoopCallbacks

Python lists that are used as stacks with `append` / `[-1]` / `[:-1]` are
represented with the top of the stack at the HEAD of the Lean list, so
`append` becomes cons, `[-1]` becomes head and `[:-1]` becomes tail.
-/

/-- A key press, identified by its key identity (named key or character).
The raw text payload of a KeyPress plays no role in matching. -/
abbrev Key := String

/-- A single entry of a binding's pattern: a concrete key or the wildcard
`Any` that matches every key. -/
inductive Matcher where
  | key (k : Key)
  | any
  deriving DecidableEq

/-- Positional match of one matcher against one key. -/
def Matcher.matchesKey : Matcher → Key → Bool
  | Matcher.key k, k2 => k == k2
  | Matcher.any, _ => true

/-- One key binding: a non-empty pattern of matchers, a handler (represented
by its identity), an activation filter (its value at the current application
state; the claims under study never change the application state between
queries) and the eager flag. -/
structure Binding where
  pattern : List Matcher
  handler : Nat
  filter : Bool
  eager : Bool
  deriving DecidableEq

/-- Does the whole pattern match the whole key list positionally
(and in particular: are the lengths equal)? -/
def patternMatchesKeys : List Matcher → List Key → Bool
  | [], [] => true
  | m :: ms, k :: ks => m.matchesKey k && patternMatchesKeys ms ks
  | _, _ => false

/-- Modelled from the spec: `Registry.get_bindings_for_keys`
(key_binding/registry.py is not among the sources).  Bindings whose pattern
length equals the number of keys, whose pattern matches positionally, and
whose filter currently evaluates true. -/
def bindingsForKeys (bs : List Binding) (keys : List Key) : List Binding :=
  bs.filter (fun b =>
    b.filter && b.pattern.length == keys.length && patternMatchesKeys b.pattern keys)

/-- Modelled from the spec: `Registry.get_bindings_starting_with_keys`.
Bindings whose pattern is strictly longer than the given keys and whose
first entries match positionally; the filter is NOT evaluated here. -/
def bindingsStartingWithKeys (bs : List Binding) (keys : List Key) : List Binding :=
  bs.filter (fun b =>
    keys.length < b.pattern.length && patternMatchesKeys (b.pattern.take keys.length) keys)

/-- Modelled from the spec: the `BaseRegistry` interface — the two query
methods every registry (base, merged, conditional) provides. -/
@[ext]
structure Registry where
  forKeys : List Key → List Binding
  startingWith : List Key → List Binding

/-- A base `Registry` holding a list of registered bindings. -/
def Registry.ofBindings (bs : List Binding) : Registry :=
  { forKeys := bindingsForKeys bs, startingWith := bindingsStartingWithKeys bs }

/-- Modelled from the spec: `MergedRegistry` — both query methods concatenate
the sub-registries' results in registry order. -/
def mergedRegistry (rs : List Registry) : Registry :=
  { forKeys := fun ks => rs.flatMap (fun r => r.forKeys ks)
    startingWith := fun ks => rs.flatMap (fun r => r.startingWith ks) }

/-- Modelled from the spec: `ConditionalRegistry` — when the gate predicate
is false both query methods return empty. -/
def conditionalRegistry (r : Registry) (gate : Bool) : Registry :=
  { forKeys := fun ks => if gate then r.forKeys ks else []
    startingWith := fun ks => if gate then r.startingWith ks else [] }

/-!  ## Focus tracker — layout/focus.py, class `Focus`

UIControls are represented by their identity (a `Nat`).  The `layout`
argument of the Python constructor only supplies the default focussed
control and is irrelevant to the stack behaviour, so it is omitted.
The stack is stored top-first (see the header comment). -/

structure Focus where
  stack : List Nat
  deriving DecidableEq

/-- `Focus.__init__`: the stack starts with exactly the initially focussed
control. -/
def Focus.init (c : Nat) : Focus := { stack := [c] }

/-- `focussed_control` getter: `self._stack[-1]`. -/
def Focus.focussedControl (f : Focus) : Nat := f.stack.headD 0

/-- `focussed_control` setter: append the control only when it differs from
the current top. -/
def Focus.setFocussedControl (f : Focus) (c : Nat) : Focus :=
  if c ≠ f.focussedControl then { stack := c :: f.stack } else f

/-- `previous_focussed_control`: `self._stack[-2]`, falling back to
`self._stack[-1]` on IndexError. -/
def Focus.previousFocussedControl (f : Focus) : Nat :=
  match f.stack with
  | _ :: b :: _ => b
  | [a] => a
  | [] => 0

/-- `focus_previous`: `self._stack = self._stack[:-1]` when more than one
entry exists. -/
def Focus.focusPrevious (f : Focus) : Focus :=
  if 1 < f.stack.length then { stack := f.stack.tail } else f

/-- A focus-tracker operation: set the focussed control, or return to the
previous one. -/
inductive FocusOp where
  | set (c : Nat)
  | prev
  deriving DecidableEq

def Focus.applyOp (f : Focus) : FocusOp → Focus
  | FocusOp.set c => f.setFocussedControl c
  | FocusOp.prev => f.focusPrevious

def Focus.applyOps (f : Focus) (ops : List FocusOp) : Focus :=
  ops.foldl Focus.applyOp f

/-!  ## Input processor — key_binding/input_processor.py

The file is not among the sources; the state machine is modelled from the
spec, section 4.4 (transition algorithm, steps 1–6).  Dispatching a binding
is recorded by appending its handler identity to `dispatched`. -/

/-- The input processor's mutable state: the buffered pending key presses
and the handlers dispatched so far (in dispatch order). -/
structure ProcState where
  buffer : List Key
  dispatched : List Nat
  deriving DecidableEq

def procInit : ProcState := { buffer := [], dispatched := [] }

/-- Modelled from the spec: one run of the matching loop over the current
buffer (spec 4.4 steps 1–6).
1. query exact and strictly-longer ("starting with") matches;
2. an eager exact match dispatches immediately and clears the buffer;
3. an exact match with no longer match possible dispatches the first exact
   match and clears the buffer;
4./5. if longer matches are possible the processor stays buffering
   (with, in case an exact match also exists, the ambiguity timer running);
6. if nothing matches, the first key of the buffer is dropped and matching
   is retried on the remainder, until a match state is reached or the
   buffer empties. -/
def resolveBuffer (reg : Registry) : List Key → List Nat → List Key × List Nat
  | [], dispatched => ([], dispatched)
  | k :: rest, dispatched =>
    let buffer := k :: rest
    let exact := reg.forKeys buffer
    let longer := reg.startingWith buffer
    match exact.filter (fun b => b.eager) with
    | b :: _ => ([], dispatched ++ [b.handler])
    | [] =>
      match exact, longer with
      | b :: _, [] => ([], dispatched ++ [b.handler])
      | _ :: _, _ :: _ => (buffer, dispatched)
      | [], _ :: _ => (buffer, dispatched)
      | [], [] => resolveBuffer reg rest dispatched

/-- Feed one key press: append it to the buffer and run the matching loop. -/
def processKey (reg : Registry) (st : ProcState) (k : Key) : ProcState :=
  let r := resolveBuffer reg (st.buffer ++ [k]) st.dispatched
  { buffer := r.1, dispatched := r.2 }

/-- Feed a whole sequence of key presses, one at a time, in arrival order. -/
def processKeys (reg : Registry) (st : ProcState) (keys : List Key) : ProcState :=
  keys.foldl (processKey reg) st

/-- The length of the longest registered pattern. -/
def maxPatternLength (bs : List Binding) : Nat :=
  bs.foldr (fun b m => max b.pattern.length m) 0

/-!  ## Dynamic dispatch resolver — application.py, class `_CombinedRegistry` -/

/-- The result of `UIControl.get_key_bindings`: the control's own registry
and its modal flag. -/
structure UIKeyBindings where
  registry : Registry
  modal : Bool

/-- A focusable user control, identified by `id` (Python object identity),
optionally exposing key bindings (`get_key_bindings` returning None is
represented by `none`). -/
structure UIControl where
  id : Nat
  keyBindings : Option UIKeyBindings

/-- The application data `_CombinedRegistry` reads: the global
`key_bindings_registry`. -/
structure AppKB where
  keyBindingsRegistry : Registry

/-- `[b.registry for b in [c.get_key_bindings(app) for c in visible_controls]
if b is not None]` — the registries of the visible controls that expose
one.  Note that the focussed control is NOT excluded here. -/
def exposedRegistries (visibleControls : List UIControl) : List Registry :=
  (visibleControls.filterMap (fun c => c.keyBindings)).map (fun b => b.registry)

/-- `_CombinedRegistry._create_registry`: merge the global registry with the
registries of all visible controls, and when the focussed (current) control
exposes bindings, wrap the others in a registry conditional on the modal
flag being off and layer the focussed control's registry on top. -/
def createRegistry (app : AppKB) (currentControl : UIControl)
    (visibleControls : List UIControl) : Registry :=
  let othersRegistry :=
    mergedRegistry (app.keyBindingsRegistry :: exposedRegistries visibleControls)
  match currentControl.keyBindings with
  | none => othersRegistry
  | some uiKeyBindings =>
      mergedRegistry
        [conditionalRegistry othersRegistry (!uiKeyBindings.modal),
         uiKeyBindings.registry]

/-- The effective-registry construction exactly as claim C1 words it: the
registries of the visible elements are collected EXCLUDING the focused
element.  (Stated from the spec, for comparison with `createRegistry`.) -/
def createRegistryClaim (app : AppKB) (currentControl : UIControl)
    (visibleControls : List UIControl) : Registry :=
  let othersRegistry :=
    mergedRegistry (app.keyBindingsRegistry ::
      exposedRegistries (visibleControls.filter (fun c => c.id ≠ currentControl.id)))
  match currentControl.keyBindings with
  | none => othersRegistry
  | some uiKeyBindings =>
      mergedRegistry
        [conditionalRegistry othersRegistry (!uiKeyBindings.modal),
         uiKeyBindings.registry]

/-- The modal flag of the focussed control's exposed bindings (false when it
exposes none). -/
def focusedModal (c : UIControl) : Bool :=
  match c.keyBindings with
  | some u => u.modal
  | none => false

/-- The exact-match query of the focussed control's own registry (empty when
it exposes none). -/
def focusedOwnForKeys (c : UIControl) (ks : List Key) : List Binding :=
  match c.keyBindings with
  | some u => u.registry.forKeys ks
  | none => []

/-- The cache key of `_CombinedRegistry._registry`:
`(current_control, frozenset(visible_controls))`, with controls represented
by their identities. -/
def registryCacheKey (currentControl : UIControl) (visibleControls : List UIControl) :
    Nat × Finset Nat :=
  (currentControl.id, (visibleControls.map (fun c => c.id)).toFinset)

/-- Modelled from the spec: `SimpleCache` (prompt_toolkit/cache.py is not
among the sources).  A keyed cache, bounded to a small fixed capacity
(8 entries), evicting the least-recently-used entry on overflow; on a miss
the value is computed and stored.  Entries are kept most-recently-used
first; the returned flag records whether the value had to be (re)built. -/
def lruGet (cache : List ((Nat × Finset Nat) × Registry)) (key : Nat × Finset Nat)
    (compute : Unit → Registry) :
    Registry × List ((Nat × Finset Nat) × Registry) × Bool :=
  match cache.find? (fun e => decide (e.1 = key)) with
  | some e => (e.2, (key, e.2) :: cache.filter (fun e2 => decide (e2.1 ≠ key)), false)
  | none =>
    let v := compute ()
    (v, ((key, v) :: cache).take 8, true)

/-- `_CombinedRegistry._registry`: look the effective registry up in the
cache under `registryCacheKey`, building it with `createRegistry` on a
miss. -/
def registryGet (app : AppKB) (currentControl : UIControl)
    (visibleControls : List UIControl)
    (cache : List ((Nat × Finset Nat) × Registry)) :
    Registry × List ((Nat × Finset Nat) × Registry) × Bool :=
  lruGet cache (registryCacheKey currentControl visibleControls)
    (fun _ => createRegistry app currentControl visibleControls)

/-- Thread a sequence of resolver lookups — one per listed focused control,
each with an empty visible-element set — through the cache, returning the
final cache.  Used to exhibit the effect of interposed lookups on the
bounded cache. -/
def registryGetCacheSeq (app : AppKB) (ctrls : List UIControl)
    (cache : List ((Nat × Finset Nat) × Registry)) :
    List ((Nat × Finset Nat) × Registry) :=
  ctrls.foldl (fun c ctrl => (registryGet app ctrl [] c).2.1) cache

/-!  ## Application loop controller — application.py, class `Application`

The state below keeps the fields of `Application` the claims depend on.
External collaborators (renderer, event objects, input processor) are
tracked through counters: `renderCount` counts `renderer.render` calls,
`doneRenders` those performed while `is_done` holds, `rendererResets`
counts `renderer.reset()` calls, `rendererErases` counts
`renderer.erase()` calls, `scheduledRedraws` counts redraw callbacks
handed to `loop.call_from_executor` (the constructor asserts that a loop
is always present) and `onInvalidateFired` counts `on_invalidate` events.
Sub applications are referred to by identity. -/

structure App where
  exitFlag : Bool
  abortFlag : Bool
  hasReturnValue : Bool
  isRunning : Bool
  subCli : Option Nat
  invalidated : Bool
  scheduledRedraws : Nat
  renderCount : Nat
  doneRenders : Nat
  rendererResets : Nat
  rendererErases : Nat
  onStopFired : Bool
  onInvalidateFired : Nat
  deriving DecidableEq

/-- An `Application` at rest, as `__init__` plus `reset()` leave it. -/
def App.initial : App :=
  { exitFlag := false, abortFlag := false, hasReturnValue := false
    isRunning := false, subCli := none, invalidated := false
    scheduledRedraws := 0, renderCount := 0, doneRenders := 0
    rendererResets := 0, rendererErases := 0, onStopFired := false
    onInvalidateFired := 0 }

/-- `Application.is_done`: exit flag, abort flag or return value set. -/
def App.isDone (s : App) : Bool := s.exitFlag || s.abortFlag || s.hasReturnValue

/-- `Application._redraw`: render only while running and no sub application
was started; a render performed in the done state is also counted in
`doneRenders`. -/
def App.redraw (s : App) : App :=
  if s.isRunning && s.subCli.isNone then
    { s with renderCount := s.renderCount + 1
             doneRenders := s.doneRenders + (if s.isDone then 1 else 0) }
  else s

/-- `Application.invalidate`: when a redraw is already pending, return
immediately; otherwise set the pending flag, fire `on_invalidate` and
schedule one redraw callback on the event loop. -/
def App.invalidate (s : App) : App :=
  if s.invalidated then s
  else
    let s1 := { s with invalidated := true
                       onInvalidateFired := s.onInvalidateFired + 1 }
    { s1 with scheduledRedraws := s1.scheduledRedraws + 1 }

/-- The `redraw` closure scheduled by `invalidate`: clear the pending flag,
then `_redraw`. -/
def App.redrawCallback (s : App) : App :=
  App.redraw { s with invalidated := false }

/-- `Application.reset`: clear the exit/abort flags and the return value and
reset the renderer (the input processor, layout and vi-state resets touch
no field modelled here). -/
def App.reset (s : App) : App :=
  { s with exitFlag := false, abortFlag := false, hasReturnValue := false
           rendererResets := s.rendererResets + 1 }

/-- `Application.run`.  The event loop itself is abstracted as a state
transformer `loopRun` that also reports the exception (by identity) it
terminated with, if any.  The body sets `_is_running`, resets, performs the
initial redraw and runs the loop; the `finally` block sets the exit flag
and redraws when the application is not yet done, then resets the renderer,
fires `on_stop` and clears `_is_running`; an exception from the loop
propagates to the caller afterwards. -/
def App.run (s0 : App) (loopRun : App → App × Option Nat) : App × Except Nat Unit :=
  let s1 := App.reset { s0 with isRunning := true }
  let s2 := App.redraw s1
  let p := loopRun s2
  let s4 := if p.1.isDone then p.1 else App.redraw { p.1 with exitFlag := true }
  let s5 := { s4 with rendererResets := s4.rendererResets + 1
                      onStopFired := true
                      isRunning := false }
  match p.2 with
  | some e => (s5, Except.error e)
  | none => (s5, Except.ok ())

/-- The state in which the event loop inside `App.run` terminated. -/
def App.loopState (s0 : App) (loopRun : App → App × Option Nat) : App :=
  (loopRun (App.redraw (App.reset { s0 with isRunning := true }))).1

/-- `Application.run_sub_application`.  If a sub application is already
active, a RuntimeError is raised (second component `true`) before anything
is mutated.  Otherwise the current application is erased (unless called
from an application generator), the child — whose own object is mutated,
which is outside this state — is made current and `_sub_cli` is set.  -/
def App.runSubApplication (s : App) (subId : Nat)
    (fromApplicationGenerator : Bool) : App × Bool :=
  if s.subCli.isSome then (s, true)
  else
    let s1 := if fromApplicationGenerator then s
              else { s with rendererErases := s.rendererErases + 1 }
    ({ s1 with subCli := some subId }, false)

/-!  ## Event-loop callbacks — application.py, class `_InterfaceEventLoopCallbacks`

A chain of applications linked by their `_sub_cli` pointers.  For the
key-feed claims each application is abstracted to its done flags and the
list of keys fed to its input processor. -/

structure ChainApp where
  exitFlag : Bool
  abortFlag : Bool
  hasReturnValue : Bool
  fedKeys : List Key
  deriving DecidableEq

/-- `is_done` of one application in the chain. -/
def ChainApp.isDone (a : ChainApp) : Bool :=
  a.exitFlag || a.abortFlag || a.hasReturnValue

/-- The chain of `_sub_cli` pointers starting at the root application:
`last` is an application whose `_sub_cli` is None, `sub` one whose
`_sub_cli` is the rest of the chain. -/
inductive AppChain where
  | last (a : ChainApp)
  | sub (a : ChainApp) (rest : AppChain)
  deriving DecidableEq

/-- `_InterfaceEventLoopCallbacks._active_app`: follow the `_sub_cli`
pointers from the root until an application has none. -/
def AppChain.activeApp : AppChain → ChainApp
  | AppChain.last a => a
  | AppChain.sub _ rest => activeApp rest

/-- The suspended ancestors of the active application: every application on
the chain except the deepest one. -/
def AppChain.ancestorApps : AppChain → List ChainApp
  | AppChain.last _ => []
  | AppChain.sub a rest => a :: ancestorApps rest

/-- `_InterfaceEventLoopCallbacks.feed_key`: feed the key press to the
active (deepest) application's input processor — unless that application is
in the done state, in which case the key press is ignored. -/
def AppChain.feedKey : AppChain → Key → AppChain
  | AppChain.last a, k =>
      AppChain.last (if a.isDone then a else { a with fedKeys := a.fedKeys ++ [k] })
  | AppChain.sub a rest, k => AppChain.sub a (feedKey rest k)

/-- Does the key sequence exactly match some registered pattern
(positionally, with equal length)?  Used to state claim C3's hypothesis. -/
def seqExactMatchesSome (bs : List Binding) (s : List Key) : Bool :=
  bs.any (fun b => b.pattern.length == s.length && patternMatchesKeys b.pattern s)

/-- Is the key sequence a proper (strict) leading part of some registered
pattern?  Used to state claim C3's hypothesis. -/
def seqIsProperLeadOfSome (bs : List Binding) (s : List Key) : Bool :=
  bs.any (fun b =>
    s.length < b.pattern.length && patternMatchesKeys (b.pattern.take s.length) s)

/-!  ### Concrete instances used by witnesses and counterexamples

Scenario D of the spec: a global registry binds `y` to Yank (handler 0), a
focused modal control binds `y` to Confirm (handler 1). -/

def ybConfirm : Binding := ⟨[Matcher.key "y"], 1, true, false⟩

def ybYank : Binding := ⟨[Matcher.key "y"], 0, true, false⟩

def globalAppKB : AppKB := ⟨Registry.ofBindings [ybYank]⟩

/-- A control exposing a modal registry with the Confirm binding. -/
def modalControl : UIControl := ⟨0, some ⟨Registry.ofBindings [ybConfirm], true⟩⟩

/-- A control exposing a non-modal registry with the Confirm binding. -/
def nonModalControl : UIControl := ⟨0, some ⟨Registry.ofBindings [ybConfirm], false⟩⟩

/-!  ## Helper lemmas -/

theorem invalidate_sets_flag (s : App) : (App.invalidate s).invalidated = true := by
  by_cases h : s.invalidated <;> simp [App.invalidate, h]

theorem invalidate_idem (s : App) :
    App.invalidate (App.invalidate s) = App.invalidate s := by
  have h := invalidate_sets_flag s
  rw [App.invalidate]
  simp [h]

theorem invalidate_iterate (s : App) (m : Nat) :
    App.invalidate^[m] (App.invalidate s) = App.invalidate s := by
  induction m with
  | zero => rfl
  | succ n ih => rw [Function.iterate_succ_apply, invalidate_idem, ih]

theorem focus_applyOps_ne_nil (ops : List FocusOp) (f : Focus) (h : f.stack ≠ []) :
    (f.applyOps ops).stack ≠ [] := by
  induction ops generalizing f with
  | nil => exact h
  | cons op ops ih =>
    have hstep : (f.applyOp op).stack ≠ [] := by
      cases op with
      | set c =>
        by_cases hc : c ≠ f.focussedControl
        · simp [Focus.applyOp, Focus.setFocussedControl, hc]
        · simpa [Focus.applyOp, Focus.setFocussedControl, hc] using h
      | prev =>
        by_cases hl : 1 < f.stack.length
        · have hpos : 0 < f.stack.tail.length := by
            simp only [List.length_tail]
            omega
          simpa [Focus.applyOp, Focus.focusPrevious, hl] using
            List.ne_nil_of_length_pos hpos
        · simpa [Focus.applyOp, Focus.focusPrevious, hl] using h
    simpa [Focus.applyOps, List.foldl_cons] using ih (f.applyOp op) hstep

theorem feed_key_done_fixed (c : AppChain) (k : Key)
    (h : c.activeApp.isDone = true) : c.feedKey k = c := by
  induction c with
  | last a =>
    simp only [AppChain.activeApp] at h
    simp [AppChain.feedKey, h]
  | sub a rest ih =>
    simp only [AppChain.activeApp] at h
    simp [AppChain.feedKey, ih h]

theorem resolveBuffer_fst_suffix (reg : Registry) (buf : List Key) (d : List Nat) :
    List.IsSuffix (resolveBuffer reg buf d).1 buf := by
  induction buf generalizing d with
  | nil => simp [resolveBuffer]
  | cons k rest ih =>
    simp only [resolveBuffer]
    split
    · exact List.nil_suffix
    · split
      · exact List.nil_suffix
      · exact List.suffix_refl _
      · exact List.suffix_refl _
      · exact (ih d).trans (List.suffix_cons k rest)

theorem resolveBuffer_fst_ok (reg : Registry) (buf : List Key) (d : List Nat) :
    (resolveBuffer reg buf d).1 = [] ∨
      reg.startingWith (resolveBuffer reg buf d).1 ≠ [] := by
  induction buf generalizing d with
  | nil => left; simp [resolveBuffer]
  | cons k rest ih =>
    simp only [resolveBuffer]
    split
    · left; rfl
    · split
      · left; rfl
      · next heq1 heq2 => right; simp [heq2]
      · next heq1 heq2 => right; simp [heq2]
      · exact ih d

theorem processKeys_buffer_suffix (reg : Registry) (st : ProcState) (ks : List Key) :
    List.IsSuffix (processKeys reg st ks).buffer (st.buffer ++ ks) := by
  induction ks generalizing st with
  | nil =>
    simp only [processKeys, List.foldl_nil, List.append_nil]
    exact List.suffix_refl _
  | cons k ks ih =>
    simp only [processKeys, List.foldl_cons]
    have h1 := ih (processKey reg st k)
    have h2 : List.IsSuffix (processKey reg st k).buffer (st.buffer ++ [k]) :=
      resolveBuffer_fst_suffix reg (st.buffer ++ [k]) st.dispatched
    have h3 : List.IsSuffix ((processKey reg st k).buffer ++ ks)
        ((st.buffer ++ [k]) ++ ks) := by
      obtain ⟨t, ht⟩ := h2
      exact ⟨t, by rw [← List.append_assoc, ht]⟩
    have h4 := h1.trans h3
    simpa [List.append_assoc] using h4

theorem processKeys_buffer_ok (reg : Registry) (st : ProcState) (ks : List Key)
    (h : st.buffer = [] ∨ reg.startingWith st.buffer ≠ []) :
    (processKeys reg st ks).buffer = [] ∨
      reg.startingWith (processKeys reg st ks).buffer ≠ [] := by
  induction ks generalizing st with
  | nil => simpa [processKeys] using h
  | cons k ks ih =>
    simp only [processKeys, List.foldl_cons]
    exact ih (processKey reg st k)
      (resolveBuffer_fst_ok reg (st.buffer ++ [k]) st.dispatched)

theorem le_maxPatternLength (bs : List Binding) (b : Binding) (hb : b ∈ bs) :
    b.pattern.length ≤ maxPatternLength bs := by
  induction bs with
  | nil => cases hb
  | cons x xs ih =>
    rcases List.mem_cons.mp hb with rfl | h
    · simp [maxPatternLength]
    · exact le_trans (ih h) (by simp [maxPatternLength])

theorem bufferOK_length (bs : List Binding) (buf : List Key)
    (h : buf = [] ∨ (Registry.ofBindings bs).startingWith buf ≠ []) :
    buf.length ≤ maxPatternLength bs := by
  rcases h with rfl | h
  · simp
  · simp only [Registry.ofBindings] at h
    obtain ⟨b, hb⟩ := List.exists_mem_of_ne_nil _ h
    simp only [bindingsStartingWithKeys] at hb
    have hm := List.mem_filter.mp hb
    have hlen : buf.length < b.pattern.length := by
      have := hm.2
      simp only [Bool.and_eq_true, decide_eq_true_eq] at this
      exact this.1
    exact le_trans (le_of_lt hlen) (le_maxPatternLength bs b hm.1)

/-!  ## Claims -/

/-- C5: setting the focused control to the same element X twice in
succession is equivalent to setting it once; the second operation is a
no-op, so the stack depth after `focus(X); focus(X)` equals the depth after
a single `focus(X)`, and it exceeds the starting depth by at most 1. -/
theorem c5_focus_set_idempotent (f : Focus) (X : Nat) :
    (f.setFocussedControl X).setFocussedControl X = f.setFocussedControl X ∧
    ((f.setFocussedControl X).setFocussedControl X).stack.length
      = (f.setFocussedControl X).stack.length ∧
    (f.setFocussedControl X).stack.length ≤ f.stack.length + 1 := by
  have hfc : (f.setFocussedControl X).focussedControl = X := by
    by_cases h : X = f.focussedControl
    · rw [Focus.setFocussedControl, if_neg (fun hn => hn h)]
      exact h.symm
    · rw [Focus.setFocussedControl, if_pos h]
      simp [Focus.focussedControl]
  have hidem :
      (f.setFocussedControl X).setFocussedControl X = f.setFocussedControl X := by
    set g := f.setFocussedControl X with hg
    simp [Focus.setFocussedControl, hfc]
  refine ⟨hidem, by rw [hidem], ?_⟩
  by_cases h : X = f.focussedControl
  · simp [Focus.setFocussedControl, h]
  · simp [Focus.setFocussedControl, h]

/-- C6: starting from an initialized focus tracker, no sequence of focus-set
and focus-previous operations empties the stack (so the top of the stack is
always defined); `focus_previous` removes exactly one entry when the depth
exceeds 1 and is a no-op at depth 1. -/
theorem c6_focus_stack_invariant (c : Nat) (ops : List FocusOp) :
    ((Focus.init c).applyOps ops).stack ≠ [] ∧
    (∀ f : Focus, 1 < f.stack.length →
        f.focusPrevious.stack.length = f.stack.length - 1) ∧
    (∀ f : Focus, f.stack.length = 1 → f.focusPrevious = f) := by
  refine ⟨focus_applyOps_ne_nil ops _ (by simp [Focus.init]), ?_, ?_⟩
  · intro f h
    simp [Focus.focusPrevious, h, List.length_tail]
  · intro f h
    have : ¬ 1 < f.stack.length := by omega
    simp [Focus.focusPrevious, this]

theorem c6_focus_stack_invariant_witness :
    ((Focus.init 0).applyOps [FocusOp.set 5, FocusOp.prev]).stack ≠ [] ∧
    1 < ({ stack := [1, 2] } : Focus).stack.length ∧
    ({ stack := [1, 2] } : Focus).focusPrevious.stack.length
      = ({ stack := [1, 2] } : Focus).stack.length - 1 ∧
    ({ stack := [3] } : Focus).stack.length = 1 ∧
    ({ stack := [3] } : Focus).focusPrevious = { stack := [3] } := by
  have h := c6_focus_stack_invariant 0 [FocusOp.set 5, FocusOp.prev]
  exact ⟨h.1, by decide, h.2.1 { stack := [1, 2] } (by decide), by decide,
    h.2.2 { stack := [3] } (by decide)⟩

/-- C4: N ≥ 1 consecutive `invalidate()` calls before the scheduled redraw
callback has run schedule exactly one redraw: the first call sets the
pending flag and schedules it, every further call is a no-op, and the flag
is cleared (only) when the scheduled redraw callback executes. -/
theorem c4_invalidate_idempotent (s : App) (N : Nat) (h1 : 1 ≤ N)
    (h0 : s.invalidated = false) :
    App.invalidate^[N] s = App.invalidate s ∧
    (App.invalidate^[N] s).scheduledRedraws = s.scheduledRedraws + 1 ∧
    (App.invalidate^[N] s).invalidated = true ∧
    ∀ t : App, (App.redrawCallback t).invalidated = false := by
  obtain ⟨n, rfl⟩ : ∃ n, N = n + 1 := ⟨N - 1, by omega⟩
  have hN : App.invalidate^[n + 1] s = App.invalidate s := by
    rw [Function.iterate_succ_apply, invalidate_iterate]
  refine ⟨hN, ?_, ?_, ?_⟩
  · rw [hN]
    simp [App.invalidate, h0]
  · rw [hN]
    exact invalidate_sets_flag s
  · intro t
    by_cases h : ({ t with invalidated := false } : App).isRunning &&
        ({ t with invalidated := false } : App).subCli.isNone <;>
      simp [App.redrawCallback, App.redraw, h]

theorem c4_invalidate_idempotent_witness :
    1 ≤ 3 ∧ App.initial.invalidated = false ∧
    App.invalidate^[3] App.initial = App.invalidate App.initial ∧
    (App.invalidate^[3] App.initial).scheduledRedraws
      = App.initial.scheduledRedraws + 1 ∧
    (App.invalidate^[3] App.initial).invalidated = true := by
  have h := c4_invalidate_idempotent App.initial 3 (by decide) rfl
  exact ⟨by decide, rfl, h.1, h.2.1, h.2.2.1⟩

/-- C7: when the event loop inside `run()` terminates with an exception
while the application is not yet done (and the application is still running
with no active sub application), `run()` still sets the exit flag, performs
a final redraw in the done state, resets the renderer and clears the
running flag, and then propagates the exception to the caller instead of
swallowing it. -/
theorem c7_run_exception_cleanup (s0 : App) (loopRun : App → App × Option Nat)
    (e : Nat)
    (herr : (loopRun (App.redraw (App.reset { s0 with isRunning := true }))).2
      = some e)
    (hdone : (App.loopState s0 loopRun).isDone = false)
    (hrun : (App.loopState s0 loopRun).isRunning = true)
    (hsub : (App.loopState s0 loopRun).subCli = none) :
    (App.run s0 loopRun).2 = Except.error e ∧
    (App.run s0 loopRun).1.exitFlag = true ∧
    (App.run s0 loopRun).1.doneRenders = (App.loopState s0 loopRun).doneRenders + 1 ∧
    (App.run s0 loopRun).1.rendererResets
      = (App.loopState s0 loopRun).rendererResets + 1 ∧
    (App.run s0 loopRun).1.isRunning = false ∧
    (App.run s0 loopRun).1.onStopFired = true := by
  simp only [App.loopState] at hdone hrun hsub ⊢
  simp only [App.run]
  generalize hp : loopRun (App.redraw (App.reset { s0 with isRunning := true })) = p
    at herr hdone hrun hsub ⊢
  rw [App.isDone] at hdone
  simp only [Bool.or_eq_false_iff] at hdone
  obtain ⟨⟨he, ha⟩, hr⟩ := hdone
  simp [App.redraw, App.isDone, herr, he, ha, hr, hrun, hsub]

theorem c7_run_exception_cleanup_witness :
    ((fun s => (s, some 7)) (App.redraw (App.reset { App.initial with isRunning := true }))).2
        = some 7 ∧
    (App.loopState App.initial (fun s => (s, some 7))).isDone = false ∧
    (App.loopState App.initial (fun s => (s, some 7))).isRunning = true ∧
    (App.loopState App.initial (fun s => (s, some 7))).subCli = none ∧
    (App.run App.initial (fun s => (s, some 7))).2 = Except.error 7 ∧
    (App.run App.initial (fun s => (s, some 7))).1.exitFlag = true ∧
    (App.run App.initial (fun s => (s, some 7))).1.doneRenders
      = (App.loopState App.initial (fun s => (s, some 7))).doneRenders + 1 := by
  have h := c7_run_exception_cleanup App.initial (fun s => (s, some 7)) 7
    rfl (by decide) (by decide) (by decide)
  exact ⟨rfl, by decide, by decide, by decide, h.1, h.2.1, h.2.2.1⟩

/-- C8: a key press fed through the event-loop callbacks is delivered to the
input processor of the deepest active child — the application reached by
following the `_sub_cli` pointers until one has none — and to no suspended
ancestor: every ancestor on the chain is left unchanged. -/
theorem c8_feed_key_deepest (c : AppChain) (k : Key)
    (h : c.activeApp.isDone = false) :
    (c.feedKey k).ancestorApps = c.ancestorApps ∧
    (c.feedKey k).activeApp
      = { c.activeApp with fedKeys := c.activeApp.fedKeys ++ [k] } := by
  induction c with
  | last a =>
    simp only [AppChain.activeApp] at h
    simp [AppChain.feedKey, AppChain.ancestorApps, AppChain.activeApp, h]
  | sub a rest ih =>
    simp only [AppChain.activeApp] at h
    have hr := ih h
    simp [AppChain.feedKey, AppChain.ancestorApps, AppChain.activeApp, hr.1, hr.2]

theorem c8_feed_key_deepest_witness :
    ((AppChain.sub ⟨false, false, false, ["a"]⟩
      (AppChain.last ⟨false, false, false, []⟩)).activeApp).isDone = false ∧
    ((AppChain.sub ⟨false, false, false, ["a"]⟩
      (AppChain.last ⟨false, false, false, []⟩)).feedKey "q").ancestorApps
      = (AppChain.sub ⟨false, false, false, ["a"]⟩
          (AppChain.last ⟨false, false, false, []⟩)).ancestorApps ∧
    ((AppChain.sub ⟨false, false, false, ["a"]⟩
      (AppChain.last ⟨false, false, false, []⟩)).feedKey "q").activeApp
      = ⟨false, false, false, ["q"]⟩ := by
  have h := c8_feed_key_deepest
    (AppChain.sub ⟨false, false, false, ["a"]⟩
      (AppChain.last ⟨false, false, false, []⟩)) "q" rfl
  exact ⟨rfl, h.1, h.2⟩

/-- C9: `run_sub_application` raises exactly when a sub application is
already active, and in that rejected case the application state — the
`_sub_cli` pointer included — is left unchanged; when no sub application is
active the call succeeds and installs the new sub application. -/
theorem c9_run_sub_application_reentrant (s : App) (subId : Nat) (g : Bool) :
    ((App.runSubApplication s subId g).2 = true ↔ s.subCli ≠ none) ∧
    (s.subCli ≠ none → (App.runSubApplication s subId g).1 = s) ∧
    (s.subCli = none →
      (App.runSubApplication s subId g).1.subCli = some subId ∧
      (App.runSubApplication s subId g).2 = false) := by
  cases hs : s.subCli with
  | none =>
    refine ⟨by simp [App.runSubApplication, hs], by simp [hs], ?_⟩
    intro _
    cases g <;> simp [App.runSubApplication, hs]
  | some v =>
    simp [App.runSubApplication, hs]

theorem c9_run_sub_application_reentrant_witness :
    ({ App.initial with subCli := some 3 } : App).subCli ≠ none ∧
    (App.runSubApplication { App.initial with subCli := some 3 } 9 false).1
      = { App.initial with subCli := some 3 } ∧
    (App.runSubApplication { App.initial with subCli := some 3 } 9 false).2 = true ∧
    (App.runSubApplication App.initial 9 false).1.subCli = some 9 ∧
    (App.runSubApplication App.initial 9 false).2 = false := by
  have h1 := c9_run_sub_application_reentrant
    { App.initial with subCli := some 3 } 9 false
  have h2 := c9_run_sub_application_reentrant App.initial 9 false
  refine ⟨by decide, h1.2.1 (by decide), h1.1.mpr (by decide),
    (h2.2.2 rfl).1, (h2.2.2 rfl).2⟩

/-- C10: when the active (deepest) application is in the done state, feeding
a key press through the event-loop callbacks is a no-op: the whole chain is
unchanged, so no key reaches any input processor and nothing is
dispatched. -/
theorem c10_feed_key_done_noop (c : AppChain) (k : Key)
    (h : c.activeApp.isDone = true) :
    c.feedKey k = c ∧
    ∀ reg : Registry,
      (processKeys reg procInit (c.feedKey k).activeApp.fedKeys).dispatched
        = (processKeys reg procInit c.activeApp.fedKeys).dispatched := by
  have h1 := feed_key_done_fixed c k h
  exact ⟨h1, fun reg => by rw [h1]⟩

theorem c10_feed_key_done_noop_witness :
    ((AppChain.sub ⟨false, false, false, []⟩
      (AppChain.last ⟨true, false, false, ["a"]⟩)).activeApp).isDone = true ∧
    (AppChain.sub ⟨false, false, false, []⟩
      (AppChain.last ⟨true, false, false, ["a"]⟩)).feedKey "q"
      = AppChain.sub ⟨false, false, false, []⟩
          (AppChain.last ⟨true, false, false, ["a"]⟩) := by
  have h := c10_feed_key_done_noop
    (AppChain.sub ⟨false, false, false, []⟩
      (AppChain.last ⟨true, false, false, ["a"]⟩)) "q" rfl
  exact ⟨rfl, h.1⟩

/-- C2: while the focused control exposes a modal registry R, the effective
registry coincides with R — every binding outside R (global or from another
visible element) is suppressed — and a key press with an exact match in R
(here: the unique active exact match, with no longer R-pattern possible)
dispatches R's handler even when the global registry also binds the same
key. -/
theorem c2_modal_suppression (app : AppKB) (cur : UIControl)
    (vis : List UIControl) (R : Registry)
    (hc : cur.keyBindings = some ⟨R, true⟩) :
    createRegistry app cur vis = R ∧
    (∀ (st : ProcState) (k : Key),
      processKey (createRegistry app cur vis) st k = processKey R st k) ∧
    ∀ (k : Key) (b : Binding),
      R.forKeys [k] = [b] → R.startingWith [k] = [] →
      app.keyBindingsRegistry.forKeys [k] ≠ [] →
      (processKey (createRegistry app cur vis) procInit k).dispatched
        = [b.handler] := by
  have hreg : createRegistry app cur vis = R := by
    apply Registry.ext <;> funext ks <;>
      simp [createRegistry, hc, mergedRegistry, conditionalRegistry]
  refine ⟨hreg, fun st k => by rw [hreg], ?_⟩
  intro k b hb hlong hg
  rw [hreg]
  cases hbe : b.eager <;>
    simp [processKey, procInit, resolveBuffer, hb, hlong, hbe]

theorem c2_modal_suppression_witness :
    modalControl.keyBindings = some ⟨Registry.ofBindings [ybConfirm], true⟩ ∧
    (Registry.ofBindings [ybConfirm]).forKeys ["y"] = [ybConfirm] ∧
    (Registry.ofBindings [ybConfirm]).startingWith ["y"] = [] ∧
    globalAppKB.keyBindingsRegistry.forKeys ["y"] ≠ [] ∧
    (processKey (createRegistry globalAppKB modalControl [modalControl])
        procInit "y").dispatched = [1] := by
  have h := c2_modal_suppression globalAppKB modalControl [modalControl]
    (Registry.ofBindings [ybConfirm]) rfl
  exact ⟨rfl, by decide, by decide, by decide,
    h.2.2 "y" ybConfirm (by decide) (by decide) (by decide)⟩

/-- C1, counterexample to the claim as stated, refuting both clauses the
amendment touches.  First clause: the dynamic dispatch resolver does NOT
exclude the focused element when collecting the registries of the visible
elements — with a global Yank binding, one visible control equal to the
focused control, and that control exposing a non-modal Confirm binding, the
registry the code builds answers the exact-match query for `y` differently
from the construction the claim describes (the control's binding is
collected both among the visible elements and as the layered-on-top
registry).  Second clause: a LATER lookup with the same focused element and
the same visible-element set does not always return the cached registry
without rebuilding — after the entry is stored, eight interposed lookups
under distinct keys evict it from the bounded cache, and the later same-key
lookup rebuilds (its rebuilt flag is true). -/
theorem c1_effective_registry_counterexample :
    (createRegistry globalAppKB nonModalControl [nonModalControl]).forKeys ["y"]
      ≠ (createRegistryClaim globalAppKB nonModalControl [nonModalControl]).forKeys
          ["y"] ∧
    (registryGet globalAppKB nonModalControl [nonModalControl]
        (registryGetCacheSeq globalAppKB
          [⟨1, none⟩, ⟨2, none⟩, ⟨3, none⟩, ⟨4, none⟩,
           ⟨5, none⟩, ⟨6, none⟩, ⟨7, none⟩, ⟨8, none⟩]
          (registryGet globalAppKB nonModalControl [nonModalControl] []).2.1)).2.2
      = true := by
  refine ⟨by decide, ?_⟩
  decide

/-- C1, amended: on a cache miss the effective registry is built as the
global registry merged with the registries of each visible element that
exposes one — the focused element NOT excluded — with the focused element's
own registry (when it exposes one) layered on top (the other registries
being disabled while the focused element's registry is modal); the result
is cached under (identity of the focused element, frozen set of visible
elements), and the immediately following lookup with the same focused
element and visible set returns the cached registry without rebuilding. -/
theorem c1_effective_registry_amended (app : AppKB) (cur : UIControl)
    (vis : List UIControl) (cache : List ((Nat × Finset Nat) × Registry))
    (ks : List Key)
    (hmiss : cache.find? (fun e => decide (e.1 = registryCacheKey cur vis)) = none) :
    (createRegistry app cur vis).forKeys ks =
      (if focusedModal cur then []
       else app.keyBindingsRegistry.forKeys ks
            ++ (exposedRegistries vis).flatMap (fun r => r.forKeys ks))
      ++ focusedOwnForKeys cur ks ∧
    (registryGet app cur vis cache).1 = createRegistry app cur vis ∧
    (registryGet app cur vis cache).2.2 = true ∧
    (registryGet app cur vis (registryGet app cur vis cache).2.1).1
      = createRegistry app cur vis ∧
    (registryGet app cur vis (registryGet app cur vis cache).2.1).2.2 = false := by
  have hshape : (createRegistry app cur vis).forKeys ks =
      (if focusedModal cur then []
       else app.keyBindingsRegistry.forKeys ks
            ++ (exposedRegistries vis).flatMap (fun r => r.forKeys ks))
      ++ focusedOwnForKeys cur ks := by
    cases hk : cur.keyBindings with
    | none =>
      simp [createRegistry, hk, focusedModal, focusedOwnForKeys, mergedRegistry]
    | some u =>
      cases hm : u.modal <;>
        simp [createRegistry, hk, focusedModal, focusedOwnForKeys,
          mergedRegistry, conditionalRegistry, hm]
  have h1 : registryGet app cur vis cache =
      (createRegistry app cur vis,
       ((registryCacheKey cur vis, createRegistry app cur vis) :: cache).take 8,
       true) := by
    simp [registryGet, lruGet, hmiss]
  have htake :
      (((registryCacheKey cur vis, createRegistry app cur vis) :: cache).take 8)
        = (registryCacheKey cur vis, createRegistry app cur vis) :: cache.take 7 := by
    simp [List.take_succ_cons]
  have h2 : (registryGet app cur vis
      ((registryCacheKey cur vis, createRegistry app cur vis) :: cache.take 7)).1
        = createRegistry app cur vis ∧
      (registryGet app cur vis
        ((registryCacheKey cur vis, createRegistry app cur vis) :: cache.take 7)).2.2
        = false := by
    constructor <;> simp [registryGet, lruGet, List.find?]
  refine ⟨hshape, by rw [h1], by rw [h1], ?_, ?_⟩
  · rw [h1]
    simpa [htake] using h2.1
  · rw [h1]
    simpa [htake] using h2.2

theorem c1_effective_registry_witness :
    (([] : List ((Nat × Finset Nat) × Registry)).find?
        (fun e => decide (e.1 = registryCacheKey nonModalControl [nonModalControl])))
      = none ∧
    (createRegistry globalAppKB nonModalControl [nonModalControl]).forKeys ["y"]
      = (if focusedModal nonModalControl then []
         else globalAppKB.keyBindingsRegistry.forKeys ["y"]
              ++ (exposedRegistries [nonModalControl]).flatMap
                   (fun r => r.forKeys ["y"]))
        ++ focusedOwnForKeys nonModalControl ["y"] ∧
    (registryGet globalAppKB nonModalControl [nonModalControl] []).2.2 = true ∧
    (registryGet globalAppKB nonModalControl [nonModalControl]
        (registryGet globalAppKB nonModalControl [nonModalControl] []).2.1).2.2
      = false := by
  have h := c1_effective_registry_amended globalAppKB nonModalControl
    [nonModalControl] [] ["y"] rfl
  exact ⟨rfl, h.1, h.2.2.1, h.2.2.2.2⟩

/-- C3, counterexample to the claim as stated: with the single registered
pattern `a b`, the sequence `x a` exactly matches no registered pattern and
is not a (proper) leading part of any registered pattern, yet processing it
leaves the key `a` in the buffer (the final `a` is a viable beginning of
`a b`, so the processor keeps buffering it while awaiting more input). -/
theorem c3_eviction_counterexample :
    seqExactMatchesSome
        [⟨[Matcher.key "a", Matcher.key "b"], 7, true, false⟩] ["x", "a"] = false ∧
    seqIsProperLeadOfSome
        [⟨[Matcher.key "a", Matcher.key "b"], 7, true, false⟩] ["x", "a"] = false ∧
    (processKeys
        (Registry.ofBindings [⟨[Matcher.key "a", Matcher.key "b"], 7, true, false⟩])
        procInit ["x", "a"]).buffer ≠ [] := by
  decide

/-- C3, amended: for every finite key sequence of which no nonempty suffix
is a proper leading part of a registered pattern (matching being
filter-independent), processing the whole sequence leaves the key buffer
empty; and for every sequence whatsoever, after each processed key the
key-buffer length is bounded by the length of the longest registered
pattern. -/
theorem c3_eviction_amended (bs : List Binding) (s : List Key)
    (h : (s.tails.all (fun s2 =>
        s2.isEmpty || (bindingsStartingWithKeys bs s2).isEmpty)) = true) :
    (processKeys (Registry.ofBindings bs) procInit s).buffer = [] ∧
    ∀ (t : List Key) (n : Nat),
      (processKeys (Registry.ofBindings bs) procInit (t.take n)).buffer.length
        ≤ maxPatternLength bs := by
  constructor
  · by_cases hb : (processKeys (Registry.ofBindings bs) procInit s).buffer = []
    · exact hb
    · exfalso
      have hok := processKeys_buffer_ok (Registry.ofBindings bs) procInit s
        (Or.inl rfl)
      have hne := hok.resolve_left hb
      have hsuf := processKeys_buffer_suffix (Registry.ofBindings bs) procInit s
      have hsuf2 : List.IsSuffix
          (processKeys (Registry.ofBindings bs) procInit s).buffer s := by
        simpa [procInit] using hsuf
      have hmem : (processKeys (Registry.ofBindings bs) procInit s).buffer
          ∈ s.tails := (List.mem_tails _ _).mpr hsuf2
      have hall := List.all_eq_true.mp h _ hmem
      have hbe : (processKeys (Registry.ofBindings bs) procInit s).buffer.isEmpty
          = false := by
        simpa [List.isEmpty_iff] using hb
      rw [hbe, Bool.false_or] at hall
      simp only [Registry.ofBindings] at hne
      exact hne (by simpa [List.isEmpty_iff] using hall)
  · intro t n
    exact bufferOK_length bs _
      (processKeys_buffer_ok (Registry.ofBindings bs) procInit (t.take n)
        (Or.inl rfl))

theorem c3_eviction_witness :
    ((["q", "r"] : List Key).tails.all (fun s2 =>
        s2.isEmpty ||
          (bindingsStartingWithKeys
            [⟨[Matcher.key "d", Matcher.key "d"], 5, true, false⟩] s2).isEmpty))
      = true ∧
    (processKeys
        (Registry.ofBindings [⟨[Matcher.key "d", Matcher.key "d"], 5, true, false⟩])
        procInit ["q", "r"]).buffer = [] ∧
    (processKeys
        (Registry.ofBindings [⟨[Matcher.key "d", Matcher.key "d"], 5, true, false⟩])
        procInit ((["d"] : List Key).take 1)).buffer.length
      ≤ maxPatternLength [⟨[Matcher.key "d", Matcher.key "d"], 5, true, false⟩] := by
  have h := c3_eviction_amended
    [⟨[Matcher.key "d", Matcher.key "d"], 5, true, false⟩] ["q", "r"] (by decide)
  exact ⟨by decide, h.1, h.2 ["d"] 1⟩
